import Mathlib

/-!
# Verification of the stripe-search-ql query builder

Shallow embedding of `src/query-builder.ts` and `src/utils.ts`.

Conventions of the embedding:
* JavaScript in-place mutation of a `SearchQueryBuilder` object is modelled by
  explicit state passing: every mutating method takes the builder state and
  returns the new state.
* A method that can `throw` returns `SearchQueryBuilder × Option String`: the
  first component is the builder state at the moment the method returns or
  throws (JavaScript keeps mutations made before a throw), the second is
  `some message` exactly when the method throws `new Error(message)`.
* `FieldBuilder` / `MetadataFieldBuilder` objects hold a live reference to the
  owning builder in the source; here they hold only the data they contribute
  (`field`/`key`, `negated`) and each terminal method additionally takes the
  owning builder's current state.
* JavaScript string values and numbers: values are `Value.str`, `Value.num`
  (integers, rendered with `toString`, matching `Number.prototype.toString`
  on integral values) and `Value.null_`.
-/

/-- `LogicalOperator` from `types.ts`: `"AND" | "OR"`. -/
inductive LogicalOperator where
  | AND : LogicalOperator
  | OR : LogicalOperator
deriving DecidableEq

/-- The token a logical clause renders to (`clause.operator` is the string
`"AND"` or `"OR"` in the source). -/
def LogicalOperator.toToken : LogicalOperator → String
  | .AND => "AND"
  | .OR => "OR"

/-- The value stored in a field clause: `string | number | null`. -/
inductive Value where
  | str : String → Value
  | num : Int → Value
  | null_ : Value
deriving DecidableEq

/-- `FieldClause` from `types.ts` (the `type: "field"` tag is carried by the
`QueryClause` constructor instead). -/
structure FieldClause where
  field : String
  operator : String
  value : Value
  negated : Bool
deriving DecidableEq

/-- `QueryClause` from `types.ts`: tagged union of field and logical clauses. -/
inductive QueryClause where
  | field : FieldClause → QueryClause
  | logical : LogicalOperator → QueryClause
deriving DecidableEq

/-- The state of a `SearchQueryBuilder` from `query-builder.ts`: the ordered
clause list and the nullable logical-operator lock. -/
structure SearchQueryBuilder where
  clauses : List QueryClause
  logicalOperator : Option LogicalOperator
deriving DecidableEq

/-- `escapeAndQuote` from `utils.ts`, first replacement pass:
`value.replace(/\\/g, "\\\\")` — every backslash becomes two backslashes.
A global single-character regex replacement is exactly a character-by-character
expansion, which is how we render it here (on the character list). -/
def replaceEach (c : Char) (r : List Char) : List Char → List Char
  | [] => []
  | ch :: rest => (if ch = c then r else [ch]) ++ replaceEach c r rest

/-- `escapeAndQuote(value)` from `utils.ts`: escape backslashes, then double
quotes, then wrap in double quotes. -/
def escapeAndQuote (value : String) : String :=
  let escaped :=
    String.mk (replaceEach '\"' [ '\\', '\"' ] (replaceEach '\\' [ '\\', '\\' ] value.data))
  "\"" ++ escaped ++ "\""

/-- `escapeStringValue` from `utils.ts`. -/
def escapeStringValue (value : String) : String :=
  escapeAndQuote value

/-- `escapeMetadataKey` from `utils.ts`. -/
def escapeMetadataKey (key : String) : String :=
  escapeAndQuote key

/-- `formatValue` from `utils.ts`. -/
def formatValue : Value → String
  | .null_ => "null"
  | .num n => toString n
  | .str s => escapeStringValue s

/-- Error message thrown by `and()` / `or()` on connective mixing. -/
def mixedMessage : String := "Cannot mix AND and OR operators in a single query"

/-- Error message thrown by `contains` on a short substring. -/
def shortSubstringMessage : String := "Substring match requires at least 3 characters"

/-- `SearchQueryBuilder.addFieldClause`: push the clause. -/
def SearchQueryBuilder.addFieldClause (b : SearchQueryBuilder) (c : FieldClause) :
    SearchQueryBuilder :=
  { b with clauses := b.clauses ++ [QueryClause.field c] }

/-- `SearchQueryBuilder.and()`: throws when the lock is `OR`; otherwise sets the
lock to `AND` and pushes a logical `AND` clause. -/
def SearchQueryBuilder.and (b : SearchQueryBuilder) :
    SearchQueryBuilder × Option String :=
  if b.logicalOperator = some LogicalOperator.OR then
    (b, some mixedMessage)
  else
    ({ clauses := b.clauses ++ [QueryClause.logical LogicalOperator.AND],
       logicalOperator := some LogicalOperator.AND }, none)

/-- `SearchQueryBuilder.or()`: throws when the lock is `AND`; otherwise sets the
lock to `OR` and pushes a logical `OR` clause. -/
def SearchQueryBuilder.or (b : SearchQueryBuilder) :
    SearchQueryBuilder × Option String :=
  if b.logicalOperator = some LogicalOperator.AND then
    (b, some mixedMessage)
  else
    ({ clauses := b.clauses ++ [QueryClause.logical LogicalOperator.OR],
       logicalOperator := some LogicalOperator.OR }, none)

/-- `SearchQueryBuilder.reset()`: clear the clause list and the lock. -/
def SearchQueryBuilder.reset (_b : SearchQueryBuilder) : SearchQueryBuilder :=
  { clauses := [], logicalOperator := none }

/-- The data a `FieldBuilder` object holds besides the owning-builder
reference: the target field name and the negation flag. -/
structure FieldBuilder where
  field : String
  negated : Bool

/-- `FieldBuilder.addClause`: build the field clause and append it to the
owning builder. -/
def FieldBuilder.addClause (fb : FieldBuilder) (b : SearchQueryBuilder)
    (op : String) (value : Value) : SearchQueryBuilder :=
  b.addFieldClause
    { field := fb.field, operator := op, value := value, negated := fb.negated }

/-- `FieldBuilder.equals(value)`: operator `:`. -/
def FieldBuilder.equals (fb : FieldBuilder) (b : SearchQueryBuilder) (value : Value) :
    SearchQueryBuilder :=
  fb.addClause b ":" value

/-- `FieldBuilder.contains(value)`: operator `~`, throws when
`value.length < 3` (the clause is not appended then). -/
def FieldBuilder.contains (fb : FieldBuilder) (b : SearchQueryBuilder) (value : String) :
    SearchQueryBuilder × Option String :=
  if value.length < 3 then
    (b, some shortSubstringMessage)
  else
    (fb.addClause b "~" (Value.str value), none)

/-- `FieldBuilder.greaterThan(value)`: operator `>`. -/
def FieldBuilder.greaterThan (fb : FieldBuilder) (b : SearchQueryBuilder) (value : Int) :
    SearchQueryBuilder :=
  fb.addClause b ">" (Value.num value)

/-- `FieldBuilder.lessThan(value)`: operator `<`. -/
def FieldBuilder.lessThan (fb : FieldBuilder) (b : SearchQueryBuilder) (value : Int) :
    SearchQueryBuilder :=
  fb.addClause b "<" (Value.num value)

/-- `FieldBuilder.greaterThanOrEqual(value)`: operator `>=`. -/
def FieldBuilder.greaterThanOrEqual (fb : FieldBuilder) (b : SearchQueryBuilder)
    (value : Int) : SearchQueryBuilder :=
  fb.addClause b ">=" (Value.num value)

/-- `FieldBuilder.lessThanOrEqual(value)`: operator `<=`. -/
def FieldBuilder.lessThanOrEqual (fb : FieldBuilder) (b : SearchQueryBuilder)
    (value : Int) : SearchQueryBuilder :=
  fb.addClause b "<=" (Value.num value)

/-- `FieldBuilder.isNull()`: operator `:` with value `null`. -/
def FieldBuilder.isNull (fb : FieldBuilder) (b : SearchQueryBuilder) :
    SearchQueryBuilder :=
  fb.addClause b ":" Value.null_

/-- `FieldBuilder.between(min, max)`: appends `field >= min`, then calls
`this.queryBuilder.and()`, then appends `field <= max`.  The first append
happens before the `and()` lock check, and if `and()` throws, the exception
propagates with the first append already performed. -/
def FieldBuilder.between (fb : FieldBuilder) (b : SearchQueryBuilder)
    (min max : Int) : SearchQueryBuilder × Option String :=
  let b1 := fb.addClause b ">=" (Value.num min)
  match b1.and with
  | (b2, some e) => (b2, some e)
  | (b2, none) => (fb.addClause b2 "<=" (Value.num max), none)

/-- The data a `MetadataFieldBuilder` object holds besides the owning-builder
reference. -/
structure MetadataFieldBuilder where
  key : String
  negated : Bool

/-- `MetadataFieldBuilder.addClause`: the field name is the metadata accessor
with the escaped key, computed at clause-construction time. -/
def MetadataFieldBuilder.addClause (mb : MetadataFieldBuilder)
    (b : SearchQueryBuilder) (op : String) (value : Value) : SearchQueryBuilder :=
  b.addFieldClause
    { field := "metadata[" ++ escapeMetadataKey mb.key ++ "]",
      operator := op, value := value, negated := mb.negated }

/-- `MetadataFieldBuilder.equals(value)`. -/
def MetadataFieldBuilder.equals (mb : MetadataFieldBuilder) (b : SearchQueryBuilder)
    (value : Value) : SearchQueryBuilder :=
  mb.addClause b ":" value

/-- `MetadataFieldBuilder.contains(value)`: throws when `value.length < 3`. -/
def MetadataFieldBuilder.contains (mb : MetadataFieldBuilder) (b : SearchQueryBuilder)
    (value : String) : SearchQueryBuilder × Option String :=
  if value.length < 3 then
    (b, some shortSubstringMessage)
  else
    (mb.addClause b "~" (Value.str value), none)

/-- `MetadataFieldBuilder.isNull()`. -/
def MetadataFieldBuilder.isNull (mb : MetadataFieldBuilder) (b : SearchQueryBuilder) :
    SearchQueryBuilder :=
  mb.addClause b ":" Value.null_

/-- `SearchQueryBuilder.field(name)` constructs a non-negated `FieldBuilder`
(the builder state itself is unchanged by the call). -/
def SearchQueryBuilder.field (_b : SearchQueryBuilder) (name : String) : FieldBuilder :=
  { field := name, negated := false }

/-- `SearchQueryBuilder.not(name)` constructs a negated `FieldBuilder`. -/
def SearchQueryBuilder.not (_b : SearchQueryBuilder) (name : String) : FieldBuilder :=
  { field := name, negated := true }

/-- `SearchQueryBuilder.metadata(key)`. -/
def SearchQueryBuilder.metadata (_b : SearchQueryBuilder) (key : String) :
    MetadataFieldBuilder :=
  { key := key, negated := false }

/-- `SearchQueryBuilder.notMetadata(key)`. -/
def SearchQueryBuilder.notMetadata (_b : SearchQueryBuilder) (key : String) :
    MetadataFieldBuilder :=
  { key := key, negated := true }

/-- `stripeQuery()`: a fresh, empty builder. -/
def stripeQuery : SearchQueryBuilder :=
  { clauses := [], logicalOperator := none }

/-- The token a field clause renders to in `build()`:
`` `${prefix}${clause.field}${clause.operator}${value}` ``. -/
def renderFieldClause (c : FieldClause) : String :=
  (if c.negated then "-" else "") ++ c.field ++ c.operator ++ formatValue c.value

/-- The `for (const clause of this.clauses)` loop of `build()`.  Arguments
after the clause list are the loop flags `lastWasLogical` and
`hasFieldClause`; the result is the `parts` array produced by the remaining
iterations together with the final value of `lastWasLogical`. -/
def buildParts : List QueryClause → Bool → Bool → List String × Bool
  | [], lastWasLogical, _ => ([], lastWasLogical)
  | QueryClause.field c :: rest, _, _ =>
    let r := buildParts rest false true
    (renderFieldClause c :: r.1, r.2)
  | QueryClause.logical op :: rest, lastWasLogical, hasFieldClause =>
    if hasFieldClause = false then
      buildParts rest lastWasLogical hasFieldClause
    else if lastWasLogical = false then
      let r := buildParts rest true hasFieldClause
      (op.toToken :: r.1, r.2)
    else
      buildParts rest lastWasLogical hasFieldClause

/-- The token list `build()` joins: the loop's `parts`, with the last element
popped when the walk ended on a logical operator. -/
def SearchQueryBuilder.buildTokens (b : SearchQueryBuilder) : List String :=
  let r := buildParts b.clauses false false
  if r.2 then r.1.dropLast else r.1

/-- `SearchQueryBuilder.build()`: empty string for an empty clause list,
otherwise the walk's surviving tokens joined with single spaces. -/
def SearchQueryBuilder.build (b : SearchQueryBuilder) : String :=
  if b.clauses.length = 0 then ""
  else String.intercalate " " b.buildTokens

/-- `build()` as a state transformer: the method reads `this.clauses` and
never assigns to any instance field (the `parts.pop()` mutates only the local
`parts` array), so the post-state is the pre-state. -/
def SearchQueryBuilder.buildM (b : SearchQueryBuilder) : String × SearchQueryBuilder :=
  (b.build, b)

/-- Single-pass escaping of one character: backslash and double quote get a
backslash prefix, everything else is untouched.  Used to characterise the
two sequential replacement passes of `escapeAndQuote`. -/
def escChar (c : Char) : List Char :=
  if c = '\\' then [ '\\', '\\' ]
  else if c = '\"' then [ '\\', '\"' ]
  else [c]

/-- Single-pass escaping of a character list. -/
def escapeChars : List Char → List Char
  | [] => []
  | c :: rest => escChar c ++ escapeChars rest

/-- Whether a token is a connective token of the output grammar. -/
def isConnTok (t : String) : Bool :=
  decide (t = "AND" ∨ t = "OR")

/-- No two adjacent tokens are both connective tokens. -/
def noAdjConn : List String → Bool
  | a :: b :: rest => (!(isConnTok a && isConnTok b)) && noAdjConn (b :: rest)
  | _ => true

/-- The first token, if any, is not a connective token. -/
def headNotConn : List String → Bool
  | [] => true
  | t :: _ => !isConnTok t

/-- The last token, if any, is not a connective token. -/
def lastNotConn : List String → Bool
  | [] => true
  | [t] => !isConnTok t
  | _ :: b :: rest => lastNotConn (b :: rest)

/-- Tail of the strict alternation demanded by the spec's output grammar
`query := (clause (" " connective " " clause)*)?`: after the first clause
token, tokens come in pairs connective-then-clause. -/
def strictAltTail : List String → Bool
  | [] => true
  | [_] => false
  | c :: t :: rest => isConnTok c && !isConnTok t && strictAltTail rest

/-- At most one connective kind appears (`never both within one query`). -/
def uniformConn (ts : List String) : Bool :=
  !(ts.contains "AND" && ts.contains "OR")

/-- Token-level reading of the spec's output grammar: empty, or a clause token
followed by strictly alternating connective/clause pairs, with a single
connective kind throughout. -/
def conformsGrammar (ts : List String) : Bool :=
  (match ts with
   | [] => true
   | t :: rest => !isConnTok t && strictAltTail rest)
  && uniformConn ts

/-- Modelled from the spec: the rendering walk of §4 "Rendering algorithm
(`build`)", steps 2-4, written as the spec describes it — an accumulator of
emitted tokens plus the two flags `lastEmittedWasLogical` and
`hasEmittedAnyFieldToken`, walking the clause sequence left to right. -/
def specWalk : List QueryClause → List String → Bool → Bool → List String × Bool
  | [], acc, lastEmittedWasLogical, _ => (acc, lastEmittedWasLogical)
  | QueryClause.field c :: rest, acc, _, _ =>
    specWalk rest (acc ++ [renderFieldClause c]) false true
  | QueryClause.logical op :: rest, acc, lastEmittedWasLogical, hasEmitted =>
    if hasEmitted = false then
      specWalk rest acc lastEmittedWasLogical hasEmitted
    else if lastEmittedWasLogical = false then
      specWalk rest (acc ++ [op.toToken]) true hasEmitted
    else
      specWalk rest acc lastEmittedWasLogical hasEmitted

/-- Modelled from the spec: the full rendering algorithm of §4, steps 1-6
(empty input gives the empty string; after the walk a trailing logical token
is dropped; surviving tokens are joined with single spaces). -/
def specRender (cs : List QueryClause) : String :=
  if cs.length = 0 then ""
  else
    let r := specWalk cs [] false false
    let parts := if r.2 then r.1.dropLast else r.1
    String.intercalate " " parts

/-- Builder states reachable from the empty builder through the public fluent
surface: the field/metadata terminal operations, `and()`, `or()` and
`reset()`.  For operations that can throw, the state component of the result
is reachable whether or not the call threw (in JavaScript the builder object
survives the exception with all mutations made before the throw). -/
inductive Reachable : SearchQueryBuilder → Prop where
  | empty : Reachable stripeQuery
  | equalsStep (f : String) (neg : Bool) (v : Value) {b : SearchQueryBuilder} :
      Reachable b → Reachable (FieldBuilder.equals ⟨f, neg⟩ b v)
  | containsStep (f : String) (neg : Bool) (v : String) {b : SearchQueryBuilder} :
      Reachable b → Reachable (FieldBuilder.contains ⟨f, neg⟩ b v).1
  | greaterThanStep (f : String) (neg : Bool) (v : Int) {b : SearchQueryBuilder} :
      Reachable b → Reachable (FieldBuilder.greaterThan ⟨f, neg⟩ b v)
  | lessThanStep (f : String) (neg : Bool) (v : Int) {b : SearchQueryBuilder} :
      Reachable b → Reachable (FieldBuilder.lessThan ⟨f, neg⟩ b v)
  | greaterThanOrEqualStep (f : String) (neg : Bool) (v : Int) {b : SearchQueryBuilder} :
      Reachable b → Reachable (FieldBuilder.greaterThanOrEqual ⟨f, neg⟩ b v)
  | lessThanOrEqualStep (f : String) (neg : Bool) (v : Int) {b : SearchQueryBuilder} :
      Reachable b → Reachable (FieldBuilder.lessThanOrEqual ⟨f, neg⟩ b v)
  | isNullStep (f : String) (neg : Bool) {b : SearchQueryBuilder} :
      Reachable b → Reachable (FieldBuilder.isNull ⟨f, neg⟩ b)
  | betweenStep (f : String) (neg : Bool) (mn mx : Int) {b : SearchQueryBuilder} :
      Reachable b → Reachable (FieldBuilder.between ⟨f, neg⟩ b mn mx).1
  | metadataEqualsStep (k : String) (neg : Bool) (v : Value) {b : SearchQueryBuilder} :
      Reachable b → Reachable (MetadataFieldBuilder.equals ⟨k, neg⟩ b v)
  | metadataContainsStep (k : String) (neg : Bool) (v : String) {b : SearchQueryBuilder} :
      Reachable b → Reachable (MetadataFieldBuilder.contains ⟨k, neg⟩ b v).1
  | metadataIsNullStep (k : String) (neg : Bool) {b : SearchQueryBuilder} :
      Reachable b → Reachable (MetadataFieldBuilder.isNull ⟨k, neg⟩ b)
  | andStep {b : SearchQueryBuilder} : Reachable b → Reachable (b.and).1
  | orStep {b : SearchQueryBuilder} : Reachable b → Reachable (b.or).1
  | resetStep {b : SearchQueryBuilder} : Reachable b → Reachable b.reset

/-- The operator strings a field clause can carry when built through the
fluent surface. -/
def opReachable (op : String) : Prop :=
  op = ":" ∨ op = "~" ∨ op = ">" ∨ op = "<" ∨ op = ">=" ∨ op = "<="

/-- Combined state invariant maintained by every public operation:
the lock agrees with the logical clauses present, field-clause operators come
from the fluent surface, and `~` clauses carry strings of length at least 3. -/
def BuilderInv (b : SearchQueryBuilder) : Prop :=
  (b.logicalOperator = none → ∀ op, QueryClause.logical op ∉ b.clauses)
  ∧ (∀ lop, b.logicalOperator = some lop →
      ∀ op, QueryClause.logical op ∈ b.clauses → op = lop)
  ∧ (∀ fc, QueryClause.field fc ∈ b.clauses → opReachable fc.operator)
  ∧ (∀ fc, QueryClause.field fc ∈ b.clauses → fc.operator = "~" →
      ∃ s, fc.value = Value.str s ∧ 3 ≤ s.length)

/-- An OR-locked builder: `stripeQuery().or()`. -/
def orLockedBuilder : SearchQueryBuilder :=
  (stripeQuery.or).1

/-- `stripeQuery().field("a").equals(1).field("b").equals(2)` — two field
clauses appended with no intervening connective. -/
def twoFieldBuilder : SearchQueryBuilder :=
  FieldBuilder.equals ⟨"b", false⟩
    (FieldBuilder.equals ⟨"a", false⟩ stripeQuery (Value.num 1)) (Value.num 2)

/-- `stripeQuery().field("amount").between(1000, 5000)`. -/
def betweenBuilder : SearchQueryBuilder :=
  (FieldBuilder.between ⟨"amount", false⟩ stripeQuery 1000 5000).1

example : ((stripeQuery.field "email").equals stripeQuery
    (Value.str "amy@rocketrides.io")).build = "email:\"amy@rocketrides.io\"" := by decide

example : ((stripeQuery.field "amount").greaterThan stripeQuery 1000).build
    = "amount>1000" := by decide

example : ((stripeQuery.not "currency").equals stripeQuery (Value.str "jpy")).build
    = "-currency:\"jpy\"" := by decide

example : ((stripeQuery.metadata "donation-id").equals stripeQuery
    (Value.str "asdf-jkl")).build = "metadata[\"donation-id\"]:\"asdf-jkl\"" := by decide

example : ((stripeQuery.field "amount").between stripeQuery 1000 5000).1.build
    = "amount>=1000 AND amount<=5000" := by decide

example : escapeAndQuote "the \"X\" and \\Y\\" = "\"the \\\"X\\\" and \\\\Y\\\\\"" := by
  decide

example : stripeQuery.build = "" := by decide

example : ((stripeQuery.and).1.and).1.build = "" := by decide

/-! ## Escaping -/

theorem replaceEach_append (c : Char) (r : List Char) (l1 l2 : List Char) :
    replaceEach c r (l1 ++ l2) = replaceEach c r l1 ++ replaceEach c r l2 := by
  induction l1 with
  | nil => rfl
  | cons a l1 ih => simp [replaceEach, ih]

theorem two_pass_eq_escapeChars (l : List Char) :
    replaceEach '\"' [ '\\', '\"' ] (replaceEach '\\' [ '\\', '\\' ] l)
      = escapeChars l := by
  induction l with
  | nil => rfl
  | cons a l ih =>
    by_cases h1 : a = '\\'
    · subst h1
      simp [replaceEach, escapeChars, escChar, ih]
    · by_cases h2 : a = '\"'
      · subst h2
        simp [replaceEach, escapeChars, escChar, ih]
      · simp [replaceEach, escapeChars, escChar, h1, h2, ih]

/-- C8: `escapeAndQuote` runs the backslash pass, then the quote pass, then
wraps in quotes; the two passes together amount to the single-pass escape
`escapeChars` (so no double escaping happens); `formatValue` maps `null` to
the bare word `null`, numbers to their decimal form, strings to
`escapeAndQuote`; and the value `the "X" and \Y\` renders exactly as
`"the \"X\" and \\Y\\"`. -/
theorem c8_escaping :
    (∀ s : String, escapeAndQuote s =
      "\"" ++ String.mk (replaceEach '\"' [ '\\', '\"' ]
        (replaceEach '\\' [ '\\', '\\' ] s.data)) ++ "\"")
    ∧ (∀ s : String, escapeAndQuote s = "\"" ++ String.mk (escapeChars s.data) ++ "\"")
    ∧ formatValue Value.null_ = "null"
    ∧ (∀ n : Int, formatValue (Value.num n) = toString n)
    ∧ (∀ s : String, formatValue (Value.str s) = escapeAndQuote s)
    ∧ formatValue (Value.str "the \"X\" and \\Y\\") = "\"the \\\"X\\\" and \\\\Y\\\\\"" := by
  refine ⟨fun s => rfl, fun s => ?_, rfl, fun n => rfl, fun s => rfl, by decide⟩
  show "\"" ++ String.mk (replaceEach '\"' [ '\\', '\"' ]
    (replaceEach '\\' [ '\\', '\\' ] s.data)) ++ "\"" = _
  rw [two_pass_eq_escapeChars]

/-! ## `build` is a pure read -/

/-- C6: `build()` leaves the clause sequence and the lock exactly as they
were, and calling it again on the post-state returns the same string. -/
theorem c6_build_pure :
    ∀ b : SearchQueryBuilder,
      (b.buildM).2.clauses = b.clauses
      ∧ (b.buildM).2.logicalOperator = b.logicalOperator
      ∧ (b.buildM).1 = ((b.buildM).2.buildM).1 := by
  intro b
  exact ⟨rfl, rfl, rfl⟩

/-! ## The connective lock -/

/-- C4: `and()` throws exactly when the lock is `OR` and `or()` exactly when
it is `AND`; a failed call returns the builder untouched; a successful call
sets the lock to its own connective and appends the logical clause (also when
leading); and appending a field clause never changes the lock, so between
resets only `reset()` can change the committed connective. -/
theorem c4_connective_lock :
    (∀ b : SearchQueryBuilder, b.logicalOperator = some LogicalOperator.OR →
      b.and = (b, some mixedMessage))
    ∧ (∀ b : SearchQueryBuilder, b.logicalOperator ≠ some LogicalOperator.OR →
      b.and = ({ clauses := b.clauses ++ [QueryClause.logical LogicalOperator.AND],
                 logicalOperator := some LogicalOperator.AND }, none))
    ∧ (∀ b : SearchQueryBuilder, b.logicalOperator = some LogicalOperator.AND →
      b.or = (b, some mixedMessage))
    ∧ (∀ b : SearchQueryBuilder, b.logicalOperator ≠ some LogicalOperator.AND →
      b.or = ({ clauses := b.clauses ++ [QueryClause.logical LogicalOperator.OR],
                logicalOperator := some LogicalOperator.OR }, none))
    ∧ (∀ (b : SearchQueryBuilder) (c : FieldClause),
        (b.addFieldClause c).logicalOperator = b.logicalOperator) := by
  refine ⟨fun b h => ?_, fun b h => ?_, fun b h => ?_, fun b h => ?_, fun b c => rfl⟩
  · simp [SearchQueryBuilder.and, h]
  · simp [SearchQueryBuilder.and, h]
  · simp [SearchQueryBuilder.or, h]
  · simp [SearchQueryBuilder.or, h]

/-- Witness for C4 at concrete inputs. -/
theorem c4_connective_lock_witness :
    (orLockedBuilder.and = (orLockedBuilder, some mixedMessage))
    ∧ (stripeQuery.and = ({ clauses := [QueryClause.logical LogicalOperator.AND],
                            logicalOperator := some LogicalOperator.AND }, none)) :=
  ⟨c4_connective_lock.1 orLockedBuilder rfl,
   c4_connective_lock.2.1 stripeQuery (by decide)⟩

/-! ## `reset` -/

/-- C7: `reset()` returns the empty, unlocked builder state in one step;
afterwards `build()` gives the empty string, and a previously AND-locked
builder accepts `or()` (and an OR-locked one accepts `and()`). -/
theorem c7_reset_clears :
    (∀ b : SearchQueryBuilder, b.reset = stripeQuery)
    ∧ (∀ b : SearchQueryBuilder, (b.reset).build = "")
    ∧ (∀ b : SearchQueryBuilder, b.logicalOperator = some LogicalOperator.AND →
        ((b.reset).or).2 = none)
    ∧ (∀ b : SearchQueryBuilder, b.logicalOperator = some LogicalOperator.OR →
        ((b.reset).and).2 = none) := by
  refine ⟨fun b => rfl, fun b => rfl, fun b _ => ?_, fun b _ => ?_⟩
  · simp [SearchQueryBuilder.reset, SearchQueryBuilder.or, stripeQuery]
  · simp [SearchQueryBuilder.reset, SearchQueryBuilder.and, stripeQuery]

/-- Witness for C7 at a concrete AND-locked and a concrete OR-locked builder. -/
theorem c7_reset_clears_witness :
    ((((stripeQuery.and).1.reset).or).2 = none)
    ∧ ((orLockedBuilder.reset).and).2 = none :=
  ⟨c7_reset_clears.2.2.1 (stripeQuery.and).1 rfl,
   c7_reset_clears.2.2.2 orLockedBuilder rfl⟩

/-! ## `between` -/

/-- C10: `between(min, max)` checks nothing about `min` and `max`: whenever
the lock is not `OR` (for every pair of integers, also `min > max` or
`min = max`) it succeeds, appending exactly `field >= min`, a logical `AND`
and `field <= max`, in that order, and when invoked on a fresh builder the
result renders as `field>=min AND field<=max`. -/
theorem c10_between_no_range_check :
    (∀ (fb : FieldBuilder) (b : SearchQueryBuilder) (mn mx : Int),
      b.logicalOperator ≠ some LogicalOperator.OR →
      fb.between b mn mx =
        ({ clauses := b.clauses ++
             [QueryClause.field
                { field := fb.field, operator := ">=",
                  value := Value.num mn, negated := fb.negated },
              QueryClause.logical LogicalOperator.AND,
              QueryClause.field
                { field := fb.field, operator := "<=",
                  value := Value.num mx, negated := fb.negated }],
           logicalOperator := some LogicalOperator.AND }, none))
    ∧ (∀ (f : String) (mn mx : Int),
        ((stripeQuery.field f).between stripeQuery mn mx).1.build =
          f ++ ">=" ++ toString mn ++ " AND " ++ f ++ "<=" ++ toString mx) := by
  constructor
  · intro fb b mn mx h
    simp [FieldBuilder.between, FieldBuilder.addClause,
      SearchQueryBuilder.addFieldClause, SearchQueryBuilder.and, h]
  · intro f mn mx
    show SearchQueryBuilder.build
      { clauses := [QueryClause.field
          { field := f, operator := ">=", value := Value.num mn, negated := false },
        QueryClause.logical LogicalOperator.AND,
        QueryClause.field
          { field := f, operator := "<=", value := Value.num mx, negated := false }],
        logicalOperator := some LogicalOperator.AND } = _
    show String.intercalate " "
      ["" ++ f ++ ">=" ++ toString mn, "AND", "" ++ f ++ "<=" ++ toString mx] = _
    have h3 : String.intercalate " "
        ["" ++ f ++ ">=" ++ toString mn, "AND", "" ++ f ++ "<=" ++ toString mx]
        = ("" ++ f ++ ">=" ++ toString mn) ++ " " ++ "AND" ++ " "
          ++ ("" ++ f ++ "<=" ++ toString mx) := rfl
    rw [h3]
    apply String.ext
    simp [String.data_append]

/-- Witness for C10 at concrete inputs with `min > max`. -/
theorem c10_between_no_range_check_witness :
    ((stripeQuery.field "amount").between stripeQuery 9 2 =
      ({ clauses := [QueryClause.field
           { field := "amount", operator := ">=", value := Value.num 9, negated := false },
         QueryClause.logical LogicalOperator.AND,
         QueryClause.field
           { field := "amount", operator := "<=", value := Value.num 2, negated := false }],
         logicalOperator := some LogicalOperator.AND }, none))
    ∧ ((stripeQuery.field "amount").between stripeQuery 9 2).1.build
        = "amount>=9 AND amount<=2" :=
  ⟨c10_between_no_range_check.1 (stripeQuery.field "amount") stripeQuery 9 2 (by decide),
   c10_between_no_range_check.2 "amount" 9 2⟩

/-- C1 counterexample: on an OR-locked builder, `between(1, 2)` does raise the
connective-mixing error, but the clause sequence does NOT stay as it was —
the `field >= min` clause has been appended before the failing `and()`. -/
theorem c1_between_counterexample :
    ((orLockedBuilder.field "amount").between orLockedBuilder 1 2).2 = some mixedMessage
    ∧ ((orLockedBuilder.field "amount").between orLockedBuilder 1 2).1.clauses
        ≠ orLockedBuilder.clauses
    ∧ ((orLockedBuilder.field "amount").between orLockedBuilder 1 2).1.clauses
        = orLockedBuilder.clauses ++
          [QueryClause.field
            { field := "amount", operator := ">=", value := Value.num 1,
              negated := false }] := by
  refine ⟨by decide, by decide, by decide⟩

/-- C1 amended: if the lock is `OR`, `between(min, max)` raises the
connective-mixing error and leaves the lock unchanged, but the clause
sequence gains exactly the `field >= min` clause (the append performed before
the lock check persists); the logical clause and the `field <= max` clause
are not appended. -/
theorem c1_between_or_lock :
    ∀ (fb : FieldBuilder) (b : SearchQueryBuilder) (mn mx : Int),
      b.logicalOperator = some LogicalOperator.OR →
      fb.between b mn mx =
        ({ clauses := b.clauses ++
             [QueryClause.field
               { field := fb.field, operator := ">=",
                 value := Value.num mn, negated := fb.negated }],
           logicalOperator := b.logicalOperator }, some mixedMessage) := by
  intro fb b mn mx h
  simp [FieldBuilder.between, FieldBuilder.addClause,
    SearchQueryBuilder.addFieldClause, SearchQueryBuilder.and, h]

/-- Witness for the amended C1 at a concrete OR-locked builder. -/
theorem c1_between_or_lock_witness :
    (SearchQueryBuilder.field orLockedBuilder "amount").between orLockedBuilder 1 2 =
      ({ clauses := orLockedBuilder.clauses ++
           [QueryClause.field
             { field := "amount", operator := ">=", value := Value.num 1,
               negated := false }],
         logicalOperator := orLockedBuilder.logicalOperator }, some mixedMessage) :=
  c1_between_or_lock (SearchQueryBuilder.field orLockedBuilder "amount")
    orLockedBuilder 1 2 rfl

/-! ## State invariant of the public surface -/

theorem builderInv_addFieldClause {b : SearchQueryBuilder} (c : FieldClause)
    (h : BuilderInv b) (hop : opReachable c.operator)
    (htilde : c.operator = "~" → ∃ s, c.value = Value.str s ∧ 3 ≤ s.length) :
    BuilderInv (b.addFieldClause c) := by
  obtain ⟨h1, h2, h3, h4⟩ := h
  refine ⟨?_, ?_, ?_, ?_⟩
  · intro hn op
    simp [SearchQueryBuilder.addFieldClause] at hn ⊢
    exact h1 hn op
  · intro lop hlop op hmem
    simp [SearchQueryBuilder.addFieldClause] at hlop hmem
    exact h2 lop hlop op hmem
  · intro fc hmem
    simp [SearchQueryBuilder.addFieldClause] at hmem
    rcases hmem with hmem | rfl
    · exact h3 fc hmem
    · exact hop
  · intro fc hmem hfc
    simp [SearchQueryBuilder.addFieldClause] at hmem
    rcases hmem with hmem | rfl
    · exact h4 fc hmem hfc
    · exact htilde hfc

theorem builderInv_and {b : SearchQueryBuilder} (h : BuilderInv b) :
    BuilderInv (b.and).1 := by
  obtain ⟨h1, h2, h3, h4⟩ := h
  unfold SearchQueryBuilder.and
  by_cases hOR : b.logicalOperator = some LogicalOperator.OR
  · simpa [hOR] using ⟨h1, h2, h3, h4⟩
  · simp only [hOR, if_false]
    refine ⟨by simp, ?_, ?_, ?_⟩
    · intro lop hlop op hmem
      simp at hlop
      subst hlop
      simp at hmem
      rcases hmem with hmem | rfl
      · cases hb : b.logicalOperator with
        | none => exact absurd hmem (h1 hb op)
        | some l =>
          cases l with
          | AND => exact h2 LogicalOperator.AND hb op hmem
          | OR => exact absurd hb hOR
      · rfl
    · intro fc hmem
      simp at hmem
      exact h3 fc hmem
    · intro fc hmem hfc
      simp at hmem
      exact h4 fc hmem hfc

theorem builderInv_or {b : SearchQueryBuilder} (h : BuilderInv b) :
    BuilderInv (b.or).1 := by
  obtain ⟨h1, h2, h3, h4⟩ := h
  unfold SearchQueryBuilder.or
  by_cases hAND : b.logicalOperator = some LogicalOperator.AND
  · simpa [hAND] using ⟨h1, h2, h3, h4⟩
  · simp only [hAND, if_false]
    refine ⟨by simp, ?_, ?_, ?_⟩
    · intro lop hlop op hmem
      simp at hlop
      subst hlop
      simp at hmem
      rcases hmem with hmem | rfl
      · cases hb : b.logicalOperator with
        | none => exact absurd hmem (h1 hb op)
        | some l =>
          cases l with
          | OR => exact h2 LogicalOperator.OR hb op hmem
          | AND => exact absurd hb hAND
      · rfl
    · intro fc hmem
      simp at hmem
      exact h3 fc hmem
    · intro fc hmem hfc
      simp at hmem
      exact h4 fc hmem hfc

theorem builderInv_between (fb : FieldBuilder) {b : SearchQueryBuilder}
    (mn mx : Int) (h : BuilderInv b) :
    BuilderInv (fb.between b mn mx).1 := by
  have h1 : BuilderInv (fb.addClause b ">=" (Value.num mn)) :=
    builderInv_addFieldClause _ h (by simp [opReachable]) (fun hc => by simp at hc)
  have h2 : BuilderInv ((fb.addClause b ">=" (Value.num mn)).and).1 :=
    builderInv_and h1
  unfold FieldBuilder.between
  rcases he : (fb.addClause b ">=" (Value.num mn)).and with ⟨b2, e⟩
  rw [he] at h2
  cases e with
  | some msg => simpa [he] using h2
  | none =>
    simp only [he]
    exact builderInv_addFieldClause _ h2 (by simp [opReachable]) (fun hc => by simp at hc)

/-- Every builder state reachable through the public fluent surface satisfies
the combined invariant. -/
theorem reachable_builderInv {b : SearchQueryBuilder} (h : Reachable b) :
    BuilderInv b := by
  induction h with
  | empty =>
    refine ⟨?_, ?_, ?_, ?_⟩ <;> simp [stripeQuery, BuilderInv]
  | equalsStep f neg v _ ih =>
    exact builderInv_addFieldClause _ ih (by simp [opReachable]) (fun hc => by simp at hc)
  | containsStep f neg v _ ih =>
    unfold FieldBuilder.contains
    by_cases hlen : v.length < 3
    · simpa [hlen] using ih
    · simp only [hlen, if_false]
      refine builderInv_addFieldClause _ ih (by simp [opReachable]) ?_
      intro _
      exact ⟨v, rfl, by omega⟩
  | greaterThanStep f neg v _ ih =>
    exact builderInv_addFieldClause _ ih (by simp [opReachable]) (fun hc => by simp at hc)
  | lessThanStep f neg v _ ih =>
    exact builderInv_addFieldClause _ ih (by simp [opReachable]) (fun hc => by simp at hc)
  | greaterThanOrEqualStep f neg v _ ih =>
    exact builderInv_addFieldClause _ ih (by simp [opReachable]) (fun hc => by simp at hc)
  | lessThanOrEqualStep f neg v _ ih =>
    exact builderInv_addFieldClause _ ih (by simp [opReachable]) (fun hc => by simp at hc)
  | isNullStep f neg _ ih =>
    exact builderInv_addFieldClause _ ih (by simp [opReachable]) (fun hc => by simp at hc)
  | betweenStep f neg mn mx _ ih =>
    exact builderInv_between _ mn mx ih
  | metadataEqualsStep k neg v _ ih =>
    exact builderInv_addFieldClause _ ih (by simp [opReachable]) (fun hc => by simp at hc)
  | metadataContainsStep k neg v _ ih =>
    unfold MetadataFieldBuilder.contains
    by_cases hlen : v.length < 3
    · simpa [hlen] using ih
    · simp only [hlen, if_false]
      refine builderInv_addFieldClause _ ih (by simp [opReachable]) ?_
      intro _
      exact ⟨v, rfl, by omega⟩
  | metadataIsNullStep k neg _ ih =>
    exact builderInv_addFieldClause _ ih (by simp [opReachable]) (fun hc => by simp at hc)
  | andStep _ ih => exact builderInv_and ih
  | orStep _ ih => exact builderInv_or ih
  | resetStep _ _ =>
    refine ⟨?_, ?_, ?_, ?_⟩ <;> simp [SearchQueryBuilder.reset, BuilderInv]

/-! ## `contains` validation -/

/-- C5: `contains(value)` — plain or metadata — throws the substring error and
leaves the builder untouched when `value.length < 3`, and otherwise appends
exactly one field clause with operator `~` and that value; consequently every
`~` clause in a builder state reachable through the fluent surface carries a
string of length at least 3. -/
theorem c5_contains_validation :
    (∀ (fb : FieldBuilder) (b : SearchQueryBuilder) (v : String), v.length < 3 →
      fb.contains b v = (b, some shortSubstringMessage))
    ∧ (∀ (fb : FieldBuilder) (b : SearchQueryBuilder) (v : String), ¬ v.length < 3 →
      fb.contains b v =
        ({ clauses := b.clauses ++
             [QueryClause.field
               { field := fb.field, operator := "~",
                 value := Value.str v, negated := fb.negated }],
           logicalOperator := b.logicalOperator }, none))
    ∧ (∀ (mb : MetadataFieldBuilder) (b : SearchQueryBuilder) (v : String),
        v.length < 3 → mb.contains b v = (b, some shortSubstringMessage))
    ∧ (∀ (mb : MetadataFieldBuilder) (b : SearchQueryBuilder) (v : String),
        ¬ v.length < 3 →
        mb.contains b v =
          ({ clauses := b.clauses ++
               [QueryClause.field
                 { field := "metadata[" ++ escapeMetadataKey mb.key ++ "]",
                   operator := "~", value := Value.str v, negated := mb.negated }],
             logicalOperator := b.logicalOperator }, none))
    ∧ (∀ b : SearchQueryBuilder, Reachable b →
        ∀ fc, QueryClause.field fc ∈ b.clauses → fc.operator = "~" →
          ∃ s, fc.value = Value.str s ∧ 3 ≤ s.length) := by
  refine ⟨fun fb b v h => ?_, fun fb b v h => ?_, fun mb b v h => ?_,
    fun mb b v h => ?_, fun b hb => (reachable_builderInv hb).2.2.2⟩
  · simp [FieldBuilder.contains, h]
  · simp [FieldBuilder.contains, h, FieldBuilder.addClause,
      SearchQueryBuilder.addFieldClause]
  · simp [MetadataFieldBuilder.contains, h]
  · simp [MetadataFieldBuilder.contains, h, MetadataFieldBuilder.addClause,
      SearchQueryBuilder.addFieldClause]

/-- Witness for C5 at concrete inputs: `contains("am")` rejects and
`contains("amy")` appends the `~` clause. -/
theorem c5_contains_validation_witness :
    ((stripeQuery.field "email").contains stripeQuery "am"
      = (stripeQuery, some shortSubstringMessage))
    ∧ ((stripeQuery.field "email").contains stripeQuery "amy"
      = ({ clauses := [QueryClause.field
             { field := "email", operator := "~",
               value := Value.str "amy", negated := false }],
           logicalOperator := none }, none)) :=
  ⟨c5_contains_validation.1 (stripeQuery.field "email") stripeQuery "am" (by decide),
   c5_contains_validation.2.1 (stripeQuery.field "email") stripeQuery "amy" (by decide)⟩

/-! ## Lock/clauses agreement invariant -/

/-- C9: in every builder state reachable through the public fluent surface,
a `none` lock means no logical clause is present, and a `some lop` lock means
every logical clause in the sequence carries the operator `lop`. -/
theorem c9_lock_agreement :
    ∀ b : SearchQueryBuilder, Reachable b →
      (b.logicalOperator = none → ∀ op, QueryClause.logical op ∉ b.clauses)
      ∧ (∀ lop, b.logicalOperator = some lop →
          ∀ op, QueryClause.logical op ∈ b.clauses → op = lop) := by
  intro b h
  exact ⟨(reachable_builderInv h).1, (reachable_builderInv h).2.1⟩

/-- Witness for C9 at concrete reachable states. -/
theorem c9_lock_agreement_witness :
    QueryClause.logical LogicalOperator.AND ∉ stripeQuery.clauses
    ∧ QueryClause.logical LogicalOperator.AND ∉ orLockedBuilder.clauses :=
  ⟨(c9_lock_agreement stripeQuery Reachable.empty).1 rfl LogicalOperator.AND,
   fun hmem => nomatch
     ((c9_lock_agreement orLockedBuilder (Reachable.orStep Reachable.empty)).2
       LogicalOperator.OR rfl LogicalOperator.AND hmem)⟩

/-! ## The rendering walk -/

theorem specWalk_eq_buildParts (cs : List QueryClause) :
    ∀ (acc : List String) (lw hf : Bool),
      specWalk cs acc lw hf = (acc ++ (buildParts cs lw hf).1, (buildParts cs lw hf).2) := by
  induction cs with
  | nil => intro acc lw hf; simp [specWalk, buildParts]
  | cons c rest ih =>
    intro acc lw hf
    cases c with
    | field fc => simp [specWalk, buildParts, ih]
    | logical op =>
      by_cases hhf : hf = false
      · simp [specWalk, buildParts, hhf, ih]
      · by_cases hlw : lw = false
        · simp [specWalk, buildParts, hhf, hlw, ih]
        · simp [specWalk, buildParts, hhf, hlw, ih]

theorem buildParts_allLogical (cs : List QueryClause)
    (h : ∀ c ∈ cs, ∃ op, c = QueryClause.logical op) :
    ∀ lw : Bool, buildParts cs lw false = ([], lw) := by
  induction cs with
  | nil => intro lw; rfl
  | cons c rest ih =>
    intro lw
    obtain ⟨op, rfl⟩ := h c (List.mem_cons_self c rest)
    have hrest : ∀ c ∈ rest, ∃ op, c = QueryClause.logical op :=
      fun c hc => h c (List.mem_cons_of_mem _ hc)
    simp [buildParts, ih hrest lw]

/-- C3: `build()` implements exactly the spec's left-to-right rendering walk
(`specRender`); in particular it returns the empty string on an empty clause
sequence, and a builder holding only logical clauses also renders to the
empty string. -/
theorem c3_render_algorithm :
    (∀ b : SearchQueryBuilder, b.build = specRender b.clauses)
    ∧ (∀ b : SearchQueryBuilder, b.clauses = [] → b.build = "")
    ∧ (∀ b : SearchQueryBuilder,
        (∀ c ∈ b.clauses, ∃ op, c = QueryClause.logical op) → b.build = "") := by
  refine ⟨fun b => ?_, fun b h => ?_, fun b h => ?_⟩
  · simp [SearchQueryBuilder.build, specRender, SearchQueryBuilder.buildTokens,
      specWalk_eq_buildParts]
  · simp [SearchQueryBuilder.build, h]
  · by_cases hnil : b.clauses.length = 0
    · simp [SearchQueryBuilder.build, hnil]
    · simp [SearchQueryBuilder.build, hnil, SearchQueryBuilder.buildTokens,
        buildParts_allLogical b.clauses h false, String.intercalate]

/-- Witness for C3: a builder holding only a logical clause renders to the
empty string, and the empty builder renders to the empty string. -/
theorem c3_render_algorithm_witness :
    SearchQueryBuilder.build
      { clauses := [QueryClause.logical LogicalOperator.AND],
        logicalOperator := some LogicalOperator.AND } = ""
    ∧ stripeQuery.build = "" :=
  ⟨c3_render_algorithm.2.2
     { clauses := [QueryClause.logical LogicalOperator.AND],
       logicalOperator := some LogicalOperator.AND }
     (fun _ hc => ⟨LogicalOperator.AND, List.mem_singleton.mp hc⟩),
   c3_render_algorithm.2.1 stripeQuery rfl⟩

/-! ## Token-list facts used for the output-grammar analysis -/

theorem noAdjConn_cons_head_false {x : String} {l : List String}
    (hx : isConnTok x = false) (hl : noAdjConn l = true) :
    noAdjConn (x :: l) = true := by
  cases l with
  | nil => rfl
  | cons y ys => simp [noAdjConn, hx, hl]

theorem noAdjConn_cons_of_headNotConn {x : String} {l : List String}
    (hh : headNotConn l = true) (hl : noAdjConn l = true) :
    noAdjConn (x :: l) = true := by
  cases l with
  | nil => rfl
  | cons y ys =>
    simp [headNotConn] at hh
    simp [noAdjConn, hh, hl]

theorem lastNotConn_cons {x : String} {l : List String}
    (hx : isConnTok x = false) (hl : lastNotConn l = true) :
    lastNotConn (x :: l) = true := by
  cases l with
  | nil => simp [lastNotConn, hx]
  | cons y ys => simpa [lastNotConn] using hl

theorem lastNotConn_cons_nonempty {x : String} {l : List String}
    (hne : l ≠ []) (hl : lastNotConn l = true) :
    lastNotConn (x :: l) = true := by
  cases l with
  | nil => exact absurd rfl hne
  | cons y ys => simpa [lastNotConn] using hl

theorem noAdjConn_append_left :
    ∀ l1 l2 : List String, noAdjConn (l1 ++ l2) = true → noAdjConn l1 = true := by
  intro l1
  induction l1 with
  | nil => intro l2 _; rfl
  | cons a l ih =>
    intro l2 h
    cases l with
    | nil => rfl
    | cons b bs =>
      simp only [List.cons_append, noAdjConn, Bool.and_eq_true] at h ⊢
      exact ⟨h.1, ih l2 (by simpa using h.2)⟩

theorem headNotConn_append_left (l1 l2 : List String)
    (h : headNotConn (l1 ++ l2) = true) : headNotConn l1 = true := by
  cases l1 with
  | nil => rfl
  | cons a l => simpa [headNotConn] using h

theorem lastNotConn_of_append_conn :
    ∀ (l : List String) (t : String),
      noAdjConn (l ++ [t]) = true → isConnTok t = true → lastNotConn l = true := by
  intro l
  induction l with
  | nil => intro t _ _; rfl
  | cons a l ih =>
    intro t h ht
    cases l with
    | nil =>
      simp [noAdjConn, ht] at h
      simp [lastNotConn, h]
    | cons b bs =>
      have h2 : noAdjConn ((b :: bs) ++ [t]) = true := by
        simp only [List.cons_append, noAdjConn, Bool.and_eq_true] at h
        simpa using h.2
      simpa [lastNotConn] using ih t h2 ht

theorem buildParts_nil_flag :
    ∀ (cs : List QueryClause) (lw hf : Bool),
      (buildParts cs lw hf).1 = [] → (buildParts cs lw hf).2 = lw := by
  intro cs
  induction cs with
  | nil => intro lw hf _; rfl
  | cons c rest ih =>
    intro lw hf h
    cases c with
    | field fc => simp [buildParts] at h
    | logical op =>
      cases hf with
      | false =>
        simp only [buildParts] at h ⊢
        exact ih lw false (by simpa using h)
      | true =>
        cases lw with
        | false => simp [buildParts] at h
        | true =>
          simp only [buildParts] at h ⊢
          exact ih true true (by simpa using h)

theorem buildParts_main :
    ∀ (cs : List QueryClause) (lw hf : Bool),
      (∀ fc, QueryClause.field fc ∈ cs → isConnTok (renderFieldClause fc) = false) →
      noAdjConn (buildParts cs lw hf).1 = true
      ∧ ((lw = true ∨ hf = false) → headNotConn (buildParts cs lw hf).1 = true)
      ∧ ((buildParts cs lw hf).2 = false → lastNotConn (buildParts cs lw hf).1 = true)
      ∧ ((buildParts cs lw hf).2 = true →
          (buildParts cs lw hf).1 = [] ∨
          ∃ l t, (buildParts cs lw hf).1 = l ++ [t] ∧ isConnTok t = true) := by
  intro cs
  induction cs with
  | nil =>
    intro lw hf _
    exact ⟨rfl, fun _ => rfl, fun _ => rfl, fun _ => Or.inl rfl⟩
  | cons c rest ih =>
    intro lw hf hfield
    have hfieldR : ∀ fc, QueryClause.field fc ∈ rest →
        isConnTok (renderFieldClause fc) = false :=
      fun fc hm => hfield fc (List.mem_cons_of_mem _ hm)
    cases c with
    | field fc =>
      have hfc : isConnTok (renderFieldClause fc) = false :=
        hfield fc (List.mem_cons_self _ _)
      obtain ⟨ihA, ihH, ihL, ihF⟩ := ih false true hfieldR
      refine ⟨?_, ?_, ?_, ?_⟩
      · show noAdjConn (renderFieldClause fc :: (buildParts rest false true).1) = true
        exact noAdjConn_cons_head_false hfc ihA
      · intro _
        show headNotConn (renderFieldClause fc :: (buildParts rest false true).1) = true
        simp [headNotConn, hfc]
      · intro h2
        show lastNotConn (renderFieldClause fc :: (buildParts rest false true).1) = true
        exact lastNotConn_cons hfc (ihL h2)
      · intro h2
        simp only [buildParts] at h2
        rcases ihF h2 with hnil | ⟨l, t, heq, ht⟩
        · have := buildParts_nil_flag rest false true hnil
          rw [h2] at this
          cases this
        · refine Or.inr ⟨renderFieldClause fc :: l, t, ?_, ht⟩
          show renderFieldClause fc :: (buildParts rest false true).1 = _
          rw [heq, List.cons_append]
    | logical op =>
      cases hf with
      | false =>
        obtain ⟨ihA, ihH, ihL, ihF⟩ := ih lw false hfieldR
        refine ⟨?_, ?_, ?_, ?_⟩
        · simpa [buildParts] using ihA
        · intro _
          simpa [buildParts] using ihH (Or.inr rfl)
        · intro h2
          simp only [buildParts] at h2 ⊢
          exact ihL h2
        · intro h2
          simp only [buildParts] at h2 ⊢
          exact ihF h2
      | true =>
        cases lw with
        | false =>
          obtain ⟨ihA, ihH, ihL, ihF⟩ := ih true true hfieldR
          have htok : isConnTok op.toToken = true := by
            cases op <;> simp [isConnTok, LogicalOperator.toToken]
          refine ⟨?_, ?_, ?_, ?_⟩
          · show noAdjConn (op.toToken :: (buildParts rest true true).1) = true
            exact noAdjConn_cons_of_headNotConn (ihH (Or.inl rfl)) ihA
          · intro h
            rcases h with h | h <;> cases h
          · intro h2
            simp [buildParts] at h2
            show lastNotConn (op.toToken :: (buildParts rest true true).1) = true
            have hne : (buildParts rest true true).1 ≠ [] := by
              intro hn
              have := buildParts_nil_flag rest true true hn
              rw [h2] at this
              cases this
            exact lastNotConn_cons_nonempty hne (ihL h2)
          · intro h2
            rcases ihF h2 with hnil | ⟨l, t, heq, ht⟩
            · refine Or.inr ⟨[], op.toToken, ?_, htok⟩
              show op.toToken :: (buildParts rest true true).1 = _
              rw [hnil]
              rfl
            · refine Or.inr ⟨op.toToken :: l, t, ?_, ht⟩
              show op.toToken :: (buildParts rest true true).1 = _
              rw [heq, List.cons_append]
        | true =>
          obtain ⟨ihA, ihH, ihL, ihF⟩ := ih true true hfieldR
          refine ⟨?_, ?_, ?_, ?_⟩
          · simpa [buildParts] using ihA
          · intro _
            simpa [buildParts] using ihH (Or.inl rfl)
          · intro h2
            simp only [buildParts] at h2 ⊢
            exact ihL h2
          · intro h2
            simp only [buildParts] at h2 ⊢
            exact ihF h2

theorem buildParts_mem :
    ∀ (cs : List QueryClause) (lw hf : Bool) (t : String),
      t ∈ (buildParts cs lw hf).1 →
      (∃ fc, QueryClause.field fc ∈ cs ∧ t = renderFieldClause fc)
      ∨ (∃ op, QueryClause.logical op ∈ cs ∧ t = op.toToken) := by
  intro cs
  induction cs with
  | nil => intro lw hf t ht; simp [buildParts] at ht
  | cons c rest ih =>
    intro lw hf t ht
    cases c with
    | field fc =>
      have ht' : t = renderFieldClause fc ∨ t ∈ (buildParts rest false true).1 := by
        simpa [buildParts] using ht
      rcases ht' with rfl | ht'
      · exact Or.inl ⟨fc, List.mem_cons_self _ _, rfl⟩
      · rcases ih false true t ht' with ⟨fc', hm, rfl⟩ | ⟨op, hm, rfl⟩
        · exact Or.inl ⟨fc', List.mem_cons_of_mem _ hm, rfl⟩
        · exact Or.inr ⟨op, List.mem_cons_of_mem _ hm, rfl⟩
    | logical op =>
      cases hf with
      | false =>
        have ht' : t ∈ (buildParts rest lw false).1 := by simpa [buildParts] using ht
        rcases ih lw false t ht' with ⟨fc', hm, rfl⟩ | ⟨op', hm, rfl⟩
        · exact Or.inl ⟨fc', List.mem_cons_of_mem _ hm, rfl⟩
        · exact Or.inr ⟨op', List.mem_cons_of_mem _ hm, rfl⟩
      | true =>
        cases lw with
        | false =>
          have ht' : t = op.toToken ∨ t ∈ (buildParts rest true true).1 := by
            simpa [buildParts] using ht
          rcases ht' with rfl | ht'
          · exact Or.inr ⟨op, List.mem_cons_self _ _, rfl⟩
          · rcases ih true true t ht' with ⟨fc', hm, rfl⟩ | ⟨op', hm, rfl⟩
            · exact Or.inl ⟨fc', List.mem_cons_of_mem _ hm, rfl⟩
            · exact Or.inr ⟨op', List.mem_cons_of_mem _ hm, rfl⟩
        | true =>
          have ht' : t ∈ (buildParts rest true true).1 := by simpa [buildParts] using ht
          rcases ih true true t ht' with ⟨fc', hm, rfl⟩ | ⟨op', hm, rfl⟩
          · exact Or.inl ⟨fc', List.mem_cons_of_mem _ hm, rfl⟩
          · exact Or.inr ⟨op', List.mem_cons_of_mem _ hm, rfl⟩

theorem renderFieldClause_notConn (fc : FieldClause) (hop : opReachable fc.operator) :
    isConnTok (renderFieldClause fc) = false := by
  have hchar : ∃ ch, ch ∈ fc.operator.data
      ∧ ch ∉ ("AND" : String).data ∧ ch ∉ ("OR" : String).data := by
    rcases hop with h | h | h | h | h | h <;> rw [h]
    · exact ⟨ ':', by decide, by decide, by decide⟩
    · exact ⟨ '~', by decide, by decide, by decide⟩
    · exact ⟨ '>', by decide, by decide, by decide⟩
    · exact ⟨ '<', by decide, by decide, by decide⟩
    · exact ⟨ '>', by decide, by decide, by decide⟩
    · exact ⟨ '<', by decide, by decide, by decide⟩
  obtain ⟨ch, hmem, hA, hO⟩ := hchar
  have hin : ch ∈ (renderFieldClause fc).data := by
    have hd : (renderFieldClause fc).data
        = ((if fc.negated then "-" else "") ++ fc.field).data
          ++ fc.operator.data ++ (formatValue fc.value).data := by
      simp [renderFieldClause, String.data_append]
    rw [hd]
    simp only [List.mem_append]
    tauto
  simp only [isConnTok, decide_eq_false_iff_not]
  rintro (h | h)
  · rw [h] at hin; exact hA hin
  · rw [h] at hin; exact hO hin

theorem buildTokens_subset (b : SearchQueryBuilder) :
    ∀ t ∈ b.buildTokens, t ∈ (buildParts b.clauses false false).1 := by
  intro t ht
  unfold SearchQueryBuilder.buildTokens at ht
  cases hflag : (buildParts b.clauses false false).2 with
  | false => simpa [hflag] using ht
  | true =>
    simp only [hflag, if_true] at ht
    exact List.dropLast_subset _ ht

theorem buildTokens_props (b : SearchQueryBuilder)
    (hfield : ∀ fc, QueryClause.field fc ∈ b.clauses →
      isConnTok (renderFieldClause fc) = false) :
    noAdjConn b.buildTokens = true
    ∧ headNotConn b.buildTokens = true
    ∧ lastNotConn b.buildTokens = true := by
  obtain ⟨hA, hH, hL, hF⟩ := buildParts_main b.clauses false false hfield
  unfold SearchQueryBuilder.buildTokens
  cases hflag : (buildParts b.clauses false false).2 with
  | false =>
    simp only [hflag, Bool.false_eq_true, if_false]
    exact ⟨hA, hH (Or.inr rfl), hL hflag⟩
  | true =>
    rcases hF hflag with hnil | ⟨l, t, heq, ht⟩
    · simp [hflag, hnil, noAdjConn, headNotConn, lastNotConn]
    · simp only [hflag, if_true, heq, List.dropLast_concat]
      refine ⟨noAdjConn_append_left l [t] (heq ▸ hA), ?_, ?_⟩
      · exact headNotConn_append_left l [t] (heq ▸ hH (Or.inr rfl))
      · exact lastNotConn_of_append_conn l t (heq ▸ hA) ht

theorem buildTokens_uniform (b : SearchQueryBuilder) (hInv : BuilderInv b) :
    ∀ s ∈ b.buildTokens, ∀ t ∈ b.buildTokens,
      isConnTok s = true → isConnTok t = true → s = t := by
  intro s hs t ht hcs hct
  have hs' := buildTokens_subset b s hs
  have ht' := buildTokens_subset b t ht
  rcases buildParts_mem b.clauses false false s hs' with ⟨fc, hm, rfl⟩ | ⟨op1, hm1, rfl⟩
  · rw [renderFieldClause_notConn fc (hInv.2.2.1 fc hm)] at hcs
    cases hcs
  rcases buildParts_mem b.clauses false false t ht' with ⟨fc, hm, rfl⟩ | ⟨op2, hm2, rfl⟩
  · rw [renderFieldClause_notConn fc (hInv.2.2.1 fc hm)] at hct
    cases hct
  cases hlock : b.logicalOperator with
  | none => exact absurd hm1 (hInv.1 hlock op1)
  | some lop =>
    rw [hInv.2.1 lop hlock op1 hm1, hInv.2.1 lop hlock op2 hm2]

/-- C2 counterexample: the reachable builder
`stripeQuery().field("a").equals(1).field("b").equals(2)` (two field clauses,
no intervening `and()`/`or()`) builds the string `a:1 b:2`, whose token list
`["a:1", "b:2"]` has two adjacent clause tokens with NO connective token
between them — it does not satisfy the claimed strict-alternation grammar. -/
theorem c2_grammar_counterexample :
    Reachable twoFieldBuilder
    ∧ twoFieldBuilder.build = "a:1 b:2"
    ∧ twoFieldBuilder.buildTokens = ["a:1", "b:2"]
    ∧ conformsGrammar twoFieldBuilder.buildTokens = false
    ∧ twoFieldBuilder.build = String.intercalate " " twoFieldBuilder.buildTokens :=
  ⟨Reachable.equalsStep "b" false (Value.num 2)
      (Reachable.equalsStep "a" false (Value.num 1) Reachable.empty),
   by decide, by decide, by decide, by decide⟩

/-- C2 amended: for every reachable builder state, `build()` joins its token
list with single spaces, and in that token list a connective token never
leads, never trails and never sits next to another connective token, and all
connective tokens are of a single kind (never both `AND` and `OR`); however,
two adjacent clause tokens may be separated by no connective at all, so the
separation is by AT MOST one connective token, not exactly one. -/
theorem c2_grammar_amended :
    ∀ b : SearchQueryBuilder, Reachable b →
      b.build = String.intercalate " " b.buildTokens
      ∧ headNotConn b.buildTokens = true
      ∧ lastNotConn b.buildTokens = true
      ∧ noAdjConn b.buildTokens = true
      ∧ uniformConn b.buildTokens = true := by
  intro b hb
  have hInv := reachable_builderInv hb
  have hfield : ∀ fc, QueryClause.field fc ∈ b.clauses →
      isConnTok (renderFieldClause fc) = false :=
    fun fc hm => renderFieldClause_notConn fc (hInv.2.2.1 fc hm)
  obtain ⟨hA, hH, hL⟩ := buildTokens_props b hfield
  refine ⟨?_, hH, hL, hA, ?_⟩
  · cases hcl : b.clauses with
    | nil =>
      have htok : b.buildTokens = [] := by
        simp [SearchQueryBuilder.buildTokens, hcl, buildParts]
      simp [SearchQueryBuilder.build, hcl, htok, String.intercalate]
    | cons c cs => simp [SearchQueryBuilder.build, hcl]
  · unfold uniformConn
    cases hAmem : b.buildTokens.contains "AND" with
    | false => simp
    | true =>
      cases hOmem : b.buildTokens.contains "OR" with
      | false => simp
      | true =>
        exfalso
        have hA' : "AND" ∈ b.buildTokens := by simpa using hAmem
        have hO' : "OR" ∈ b.buildTokens := by simpa using hOmem
        have heq := buildTokens_uniform b hInv "AND" hA' "OR" hO' (by decide) (by decide)
        simp at heq

/-- Witness for the amended C2 at the reachable builder
`stripeQuery().field("amount").between(1000, 5000)`. -/
theorem c2_grammar_amended_witness :
    betweenBuilder.build = String.intercalate " " betweenBuilder.buildTokens
    ∧ headNotConn betweenBuilder.buildTokens = true
    ∧ lastNotConn betweenBuilder.buildTokens = true
    ∧ noAdjConn betweenBuilder.buildTokens = true
    ∧ uniformConn betweenBuilder.buildTokens = true :=
  c2_grammar_amended betweenBuilder
    (Reachable.betweenStep "amount" false 1000 5000 Reachable.empty)
